import Mathlib

/-
Verification development for the `instorage` library: a typed, namespaced
key-value layer over an ordered transactional engine (badger).

Shallow embedding conventions:
* bytes are `List Nat` (entry values are byte values; only equality and
  lexicographic order matter to the verified code);
* the engine's visible transaction state is an association list from raw
  keys to raw values; ordered iteration is modelled by sorting the keys
  lexicographically, matching the engine contract of ordered traversal;
* Go panics (slice out of range, construction `panic(...)`) are modelled
  as `none` / a dedicated `panics` result constructor;
* the gob codec is external to the repository, so it is modelled from the
  spec by an executable structural codec on a small universe of values.
-/

namespace Instorage

/-- Raw byte strings, the currency of the storage engine. -/
abbrev Bytes := List Nat

/-- Byte-lexicographic order on raw keys (`true` when `a ≤ b`).  Models the
iteration order of the engine's ordered key space. -/
def lexLe : Bytes → Bytes → Bool
  | [], _ => true
  | _ :: _, [] => false
  | a :: as, b :: bs =>
    if a < b then true else if b < a then false else lexLe as bs

theorem lexLe_refl (l : Bytes) : lexLe l l = true := by
  induction l with
  | nil => rfl
  | cons a as ih => simp [lexLe, ih]

theorem lexLe_total (a b : Bytes) : lexLe a b = true ∨ lexLe b a = true := by
  induction a generalizing b with
  | nil => left; rfl
  | cons x xs ih =>
    cases b with
    | nil => right; rfl
    | cons y ys =>
      by_cases hxy : x < y
      · left; simp [lexLe, hxy]
      · by_cases hyx : y < x
        · right; simp [lexLe, hyx, Nat.not_lt.mpr (Nat.le_of_lt hyx)]
        · have hxy' : x = y := Nat.le_antisymm (Nat.not_lt.mp hyx) (Nat.not_lt.mp hxy)
          subst hxy'
          rcases ih ys with h | h
          · left; simp [lexLe, h]
          · right; simp [lexLe, h]

theorem lexLe_trans {a b c : Bytes} (hab : lexLe a b = true)
    (hbc : lexLe b c = true) : lexLe a c = true := by
  induction a generalizing b c with
  | nil => rfl
  | cons x xs ih =>
    cases b with
    | nil => simp [lexLe] at hab
    | cons y ys =>
      cases c with
      | nil => simp [lexLe] at hbc
      | cons z zs =>
        simp only [lexLe] at hab hbc ⊢
        split_ifs at hab hbc ⊢ with h1 h2 h3 h4 h5 h6 <;> try rfl
        all_goals try omega
        all_goals
          have hxy : x = y := by omega
          have hyz : y = z := by omega
          exact ih hab hbc

theorem lexLe_antisymm {a b : Bytes} (hab : lexLe a b = true)
    (hba : lexLe b a = true) : a = b := by
  induction a generalizing b with
  | nil =>
    cases b with
    | nil => rfl
    | cons y ys => simp [lexLe] at hba
  | cons x xs ih =>
    cases b with
    | nil => simp [lexLe] at hab
    | cons y ys =>
      simp only [lexLe] at hab hba
      split_ifs at hab hba with h1 h2 h3 <;> try omega
      have hxy : x = y := by omega
      subst hxy
      rw [ih hab hba]

theorem lexLe_append (p t : Bytes) : lexLe p (p ++ t) = true := by
  induction p with
  | nil => rfl
  | cons a as ih => simp [lexLe, ih]

/-- If `p` is a byte-prefix of `k` then `p` sorts no later than `k`. -/
theorem lexLe_of_isPrefixOf {p k : Bytes} (h : p.isPrefixOf k = true) :
    lexLe p k = true := by
  rcases List.isPrefixOf_iff_prefix.mp h with ⟨t, rfl⟩
  exact lexLe_append p t

/-!  ### The value universe and the codec

`encoding/gob` is an external Go library, not part of this repository.
Modelled from the spec: §4.1 requires a structural serializer for
arbitrary composite values with `decode` the inverse of `encode`; the
model universe `GValue` has machine numbers, byte strings and pairs
(enough to express the nested example values of §8), and the codec is a
deterministic tag-and-length byte format with an executable parser. -/

/-- Model universe of encodable typed values (keys and values). -/
inductive GValue where
  | vNat : Nat → GValue
  | vStr : Bytes → GValue
  | vPair : GValue → GValue → GValue
deriving DecidableEq

/-- The Go zero value of the model value type (`var v ValueT`). -/
def gzero : GValue := GValue.vNat 0

/-- Modelled from the spec: deterministic structural encoding of a typed
value to bytes (gob's role in `encodeGob`).  Tag byte, then payload;
strings are length-prefixed, pairs concatenate their components. -/
def encodeGValue : GValue → Bytes
  | .vNat n => [0, n]
  | .vStr s => 1 :: s.length :: s
  | .vPair a b => 2 :: (encodeGValue a ++ encodeGValue b)

/-- Fuelled parser: decodes one value from the front of the stream,
returning the value and the unconsumed remainder. -/
def decodeGValueAux : Nat → Bytes → Option (GValue × Bytes)
  | 0, _ => none
  | _ + 1, 0 :: n :: r => some (.vNat n, r)
  | _ + 1, 1 :: len :: r =>
    if len ≤ r.length then some (.vStr (r.take len), r.drop len) else none
  | f + 1, 2 :: rest =>
    match decodeGValueAux f rest with
    | some (a, r1) =>
      match decodeGValueAux f r1 with
      | some (b, r2) => some (.vPair a b, r2)
      | none => none
    | none => none
  | _ + 1, _ => none

/-- Structural depth of a value; a sufficient fuel bound for the parser. -/
def gdepth : GValue → Nat
  | .vNat _ => 1
  | .vStr _ => 1
  | .vPair a b => 1 + max (gdepth a) (gdepth b)

/-- Modelled from the spec: full decoding of a byte string (gob's role in
`decodeGob`); fails on malformed or partially-consumed input. -/
def decodeGValue (b : Bytes) : Option GValue :=
  match decodeGValueAux (b.length + 1) b with
  | some (v, []) => some v
  | _ => none

/-- Model of `encodeGob` (src/transactions.go:16): serialize a value.
Encoding never fails on the model universe, matching gob on the
serializable shapes the spec admits. -/
def encodeGob (v : GValue) : Bytes := encodeGValue v

/-- Model of `decodeGob` (src/transactions.go:26): deserialize bytes, with
`none` standing for a `DecodingError`. -/
def decodeGob (b : Bytes) : Option GValue := decodeGValue b

theorem decodeGValueAux_encode (v : GValue) :
    ∀ (f : Nat) (rest : Bytes), gdepth v ≤ f →
      decodeGValueAux f (encodeGValue v ++ rest) = some (v, rest) := by
  induction v with
  | vNat n =>
    intro f rest hf
    cases f with
    | zero => simp [gdepth] at hf
    | succ f => rfl
  | vStr s =>
    intro f rest hf
    cases f with
    | zero => simp [gdepth] at hf
    | succ f =>
      simp only [encodeGValue, List.cons_append, decodeGValueAux, List.append_eq]
      rw [if_pos (by simp)]
      rw [List.take_left' rfl, List.drop_left' rfl]
  | vPair a b iha ihb =>
    intro f rest hf
    cases f with
    | zero => simp [gdepth] at hf
    | succ f =>
      have ha : gdepth a ≤ f := by simp [gdepth] at hf; omega
      have hb : gdepth b ≤ f := by simp [gdepth] at hf; omega
      simp only [encodeGValue, List.cons_append, decodeGValueAux, List.append_eq,
        List.append_assoc]
      rw [iha f (encodeGValue b ++ rest) ha]
      simp [ihb f rest hb]

theorem gdepth_le_length_encode (v : GValue) :
    gdepth v ≤ (encodeGValue v).length := by
  induction v with
  | vNat n => simp [gdepth, encodeGValue]
  | vStr s => simp [gdepth, encodeGValue]
  | vPair a b iha ihb =>
    simp only [gdepth, encodeGValue, List.length_cons, List.length_append]
    omega

theorem decodeGValue_encodeGValue (v : GValue) :
    decodeGValue (encodeGValue v) = some v := by
  unfold decodeGValue
  have h := decodeGValueAux_encode v ((encodeGValue v).length + 1) []
    (Nat.le_trans (gdepth_le_length_encode v) (Nat.le_succ _))
  rw [List.append_nil] at h
  rw [h]

/-!  ### The engine's transactional key space

Modelled from the spec: the engine collaborator contract (§6) — a flat
byte-keyed map with point get/set/delete, ordered iteration and
prefix-drop.  The visible state of one transaction is an association
list; `storeSet` overwrites, `storeDelete` removes, and ordered
iteration sorts the keys lexicographically. -/

/-- Visible key-value state of one engine transaction. -/
abbrev Store := List (Bytes × Bytes)

/-- Engine point lookup (`txn.Get`): `none` models `ErrKeyNotFound`. -/
def storeGet : Store → Bytes → Option Bytes
  | [], _ => none
  | (k0, v0) :: rest, k => if k0 = k then some v0 else storeGet rest k

/-- Engine point delete (`txn.Delete`): removes the key if present. -/
def storeDelete : Store → Bytes → Store
  | [], _ => []
  | (k0, v0) :: rest, k =>
    if k0 = k then storeDelete rest k else (k0, v0) :: storeDelete rest k

/-- Engine point write (`txn.Set`): overwrites any previous value. -/
def storeSet (s : Store) (k v : Bytes) : Store := (k, v) :: storeDelete s k

theorem storeGet_storeSet_self (s : Store) (k v : Bytes) :
    storeGet (storeSet s k v) k = some v := by
  simp [storeSet, storeGet]

theorem storeGet_storeDelete_self (s : Store) (k : Bytes) :
    storeGet (storeDelete s k) k = none := by
  induction s with
  | nil => rfl
  | cons e rest ih =>
    obtain ⟨k0, v0⟩ := e
    by_cases h : k0 = k
    · simp [storeDelete, h, ih]
    · simp [storeDelete, storeGet, h, ih]

/-- Comparison used to model the engine's ordered iteration: entries are
ordered by byte-lexicographic order of their raw keys. -/
def keyLe (a b : Bytes × Bytes) : Prop := lexLe a.1 b.1 = true

instance : DecidableRel keyLe := fun a b => by
  unfold keyLe; infer_instance

instance : IsTotal (Bytes × Bytes) keyLe :=
  ⟨fun a b => lexLe_total a.1 b.1⟩

instance : IsTrans (Bytes × Bytes) keyLe :=
  ⟨fun _ _ _ hab hbc => lexLe_trans hab hbc⟩

/-- Entries of the transaction state in the engine's iteration order. -/
def sortByKey (s : Store) : Store := List.insertionSort keyLe s

theorem sortByKey_sorted (s : Store) : List.Sorted keyLe (sortByKey s) :=
  List.sorted_insertionSort keyLe s

theorem mem_sortByKey {s : Store} {e : Bytes × Bytes} :
    e ∈ sortByKey s ↔ e ∈ s :=
  List.mem_insertionSort keyLe

/-!  ### Key utilities (src/transactions.go) -/

/-- Model of `addPrefixToKey` (src/transactions.go:36):
`bytes.Join([][]byte{prefix, key}, []byte{0x00})`, i.e. the namespace
name, one `0x00` separator byte, then the encoded key. -/
def addPrefixToKey (pre key : Bytes) : Bytes := pre ++ 0 :: key

/-- Model of `removePrefixFromKey` (src/transactions.go:40):
`key[len(prefix)+1:]`.  Go slicing panics when the slice is shorter than
`len(prefix)+1`; the panic is modelled as `none`. -/
def removePrefixFromKey (pre key : Bytes) : Option Bytes :=
  if pre.length + 1 ≤ key.length then some (key.drop (pre.length + 1)) else none

theorem removePrefixFromKey_addPrefixToKey (pre key : Bytes) :
    removePrefixFromKey pre (addPrefixToKey pre key) = some key := by
  unfold removePrefixFromKey addPrefixToKey
  rw [if_pos (by simp)]
  have h : pre ++ 0 :: key = (pre ++ [0]) ++ key := by simp
  rw [h, List.drop_left' (by simp)]

/-!  ### Error model

`DBError` collects the failure kinds the verified operations can surface:
a value or key that does not deserialize (`DecodingError`), an error
returned by a user visitor, and an error returned by the function passed
to `Update`.  The Go code wraps these with `fmt.Errorf` context; the
wrapping constructor is the model of that context. -/

inductive DBError where
  | decodeError : DBError
  | visitorError : String → DBError
  | updateError : String → DBError
deriving DecidableEq

/-- Outcome of `Iter`: normal return, a propagated error, or a Go panic
raised by `removePrefixFromKey` on a too-short key. -/
inductive IterResult where
  | ok : IterResult
  | error : DBError → IterResult
  | panics : IterResult
deriving DecidableEq

/-- Outcome of `FindKeyByValue`: `found key okFlag` models the Go return
`(key, ok, nil)`; `error` models a non-nil error return; `panics` models
the Go panic in `removePrefixFromKey`. -/
inductive FindResult where
  | found : GValue → Bool → FindResult
  | error : DBError → FindResult
  | panics : FindResult
deriving DecidableEq

/-!  ### Single-value namespaces (src/namespaceSingle.go) -/

/-- Model of `NamespaceSingle.Set` (src/namespaceSingle.go:33): encode the
value and store it under the raw namespace name.  Neither the model codec
nor the model engine can fail here, so the error path is empty. -/
def singleSet (name : Bytes) (v : GValue) (s : Store) : Except DBError Store :=
  Except.ok (storeSet s name (encodeGob v))

/-- Model of `NamespaceSingle.Get` (src/namespaceSingle.go:48): absent key
(`ErrKeyNotFound`) yields the zero value with no error; stored bytes that
do not decode yield a `DecodingError`. -/
def singleGet (name : Bytes) (s : Store) : Except DBError GValue :=
  match storeGet s name with
  | none => Except.ok gzero
  | some vb =>
    match decodeGob vb with
    | some v => Except.ok v
    | none => Except.error DBError.decodeError

/-- Model of `NamespaceSingle.Delete` (src/namespaceSingle.go:73):
deleting an absent key is a no-op success. -/
def singleDelete (name : Bytes) (s : Store) : Except DBError Store :=
  Except.ok (storeDelete s name)

/-!  ### Multi-value namespaces (src/unnamed/part_002) -/

/-- Model of `NamespaceMultiple.Set` (src/unnamed/part_002:33): the full
encoded key is `addPrefixToKey name (encodeGob key)`. -/
def multiSet (name : Bytes) (k v : GValue) (s : Store) : Except DBError Store :=
  Except.ok (storeSet s (addPrefixToKey name (encodeGob k)) (encodeGob v))

/-- Model of `NamespaceMultiple.Get` (src/unnamed/part_002:52): absence is
signalled by `ok == false` with the zero value and no error. -/
def multiGet (name : Bytes) (k : GValue) (s : Store) :
    Except DBError (GValue × Bool) :=
  match storeGet s (addPrefixToKey name (encodeGob k)) with
  | none => Except.ok (gzero, false)
  | some vb =>
    match decodeGob vb with
    | some v => Except.ok (v, true)
    | none => Except.error DBError.decodeError

/-- Model of `NamespaceMultiple.Delete` (src/unnamed/part_002:81). -/
def multiDelete (name : Bytes) (k : GValue) (s : Store) : Except DBError Store :=
  Except.ok (storeDelete s (addPrefixToKey name (encodeGob k)))

/-- Loop body of `NamespaceMultiple.Iter` (src/unnamed/part_002:102):
for each entry (already restricted to keys that start with the raw
namespace name, in iteration order) strip the prefix (a panic when the
key is too short), decode key then value (a decode failure aborts with
that error), and invoke the visitor; a visitor error aborts, a `stop`
request ends the iteration with no error. -/
def iterLoop (name : Bytes) (viewer : GValue → GValue → Bool × Option String) :
    List (Bytes × Bytes) → IterResult
  | [] => IterResult.ok
  | (k, vb) :: rest =>
    match removePrefixFromKey name k with
    | none => IterResult.panics
    | some keyb =>
      match decodeGob keyb with
      | none => IterResult.error DBError.decodeError
      | some key =>
        match decodeGob vb with
        | none => IterResult.error DBError.decodeError
        | some value =>
          match viewer key value with
          | (_, some e) => IterResult.error (DBError.visitorError e)
          | (true, none) => IterResult.ok
          | (false, none) => iterLoop name viewer rest

/-- The key/value pairs handed to the visitor by `iterLoop`, in order. -/
def iterVisits (name : Bytes) (viewer : GValue → GValue → Bool × Option String) :
    List (Bytes × Bytes) → List (GValue × GValue)
  | [] => []
  | (k, vb) :: rest =>
    match removePrefixFromKey name k with
    | none => []
    | some keyb =>
      match decodeGob keyb with
      | none => []
      | some key =>
        match decodeGob vb with
        | none => []
        | some value =>
          match viewer key value with
          | (_, some _) => [(key, value)]
          | (true, none) => [(key, value)]
          | (false, none) => (key, value) :: iterVisits name viewer rest

/-- Model of `NamespaceMultiple.Iter` (src/unnamed/part_002:97): the
badger iterator `Seek(prefix)`/`ValidForPrefix(prefix)` loop visits, in
key order, exactly the entries whose raw key starts with the raw
namespace name (no separator byte appended — source line 101). -/
def Iter (name : Bytes) (viewer : GValue → GValue → Bool × Option String)
    (s : Store) : IterResult :=
  iterLoop name viewer (sortByKey (s.filter (fun e => name.isPrefixOf e.1)))

/-- Visited pairs of a full `Iter` call. -/
def IterVisits (name : Bytes) (viewer : GValue → GValue → Bool × Option String)
    (s : Store) : List (GValue × GValue) :=
  iterVisits name viewer (sortByKey (s.filter (fun e => name.isPrefixOf e.1)))

/-- Loop body of `FindKeyByValue` (src/unnamed/part_002:147): entries
whose raw value differs from the encoded target are skipped; at the first
match the key is stripped (panic possible) and decoded (failure gives a
non-nil error with `ok == false`), and the loop stops.  After the loop —
matched or exhausted — the source returns `key, true, nil`. -/
def findLoop (name : Bytes) (target : Bytes) :
    List (Bytes × Bytes) → FindResult
  | [] => FindResult.found gzero true
  | (k, vb) :: rest =>
    if vb = target then
      match removePrefixFromKey name k with
      | none => FindResult.panics
      | some keyb =>
        match decodeGob keyb with
        | none => FindResult.error DBError.decodeError
        | some key => FindResult.found key true
    else findLoop name target rest

/-- Model of `NamespaceMultiple.FindKeyByValue` (src/unnamed/part_002:135):
encodes the target once and scans the same prefix range as `Iter`. -/
def FindKeyByValue (name : Bytes) (v : GValue) (s : Store) : FindResult :=
  findLoop name (encodeGob v) (sortByKey (s.filter (fun e => name.isPrefixOf e.1)))

/-!  ### Database-level operations (src/unnamed/part_001) -/

/-- Model of `DB.DropNamespace` (src/unnamed/part_001:95):
`badgerdb.DropPrefix([]byte(name))` removes every key that starts with
the raw namespace name (again no separator byte). -/
def dropNamespace (name : Bytes) (s : Store) : Store :=
  s.filter (fun e => !(name.isPrefixOf e.1))

/-- Writes a transaction body can perform through the typed accessors. -/
inductive TxnOp where
  | opSingleSet : Bytes → GValue → TxnOp
  | opSingleDelete : Bytes → TxnOp
  | opMultiSet : Bytes → GValue → GValue → TxnOp
  | opMultiDelete : Bytes → GValue → TxnOp

/-- Effect of one typed write on the transaction's working state. -/
def applyOp : TxnOp → Store → Store
  | TxnOp.opSingleSet name v, s => storeSet s name (encodeGob v)
  | TxnOp.opSingleDelete name, s => storeDelete s name
  | TxnOp.opMultiSet name k v, s =>
    storeSet s (addPrefixToKey name (encodeGob k)) (encodeGob v)
  | TxnOp.opMultiDelete name k, s =>
    storeDelete s (addPrefixToKey name (encodeGob k))

/-- Sequential effect of all writes performed inside one transaction. -/
def applyOps (ops : List TxnOp) (s : Store) : Store :=
  ops.foldl (fun t op => applyOp op t) s

/-- Model of `DB.Update` (src/unnamed/part_001:55).  Modelled from the
spec: commit/discard is the engine's transaction semantics (§2, §4.5) —
the body runs against a working copy of the snapshot; a `nil` return
commits every write, a non-nil return discards them all and `Update`
returns that error wrapped (`fmt.Errorf("Update: %w", err)`).  The body
is represented by the writes it performs and the error it returns, both
determined by the snapshot it was given. -/
def dbUpdate (fn : Store → List TxnOp × Option String) (s : Store) :
    Store × Option DBError :=
  match fn s with
  | (ops, none) => (applyOps ops s, none)
  | (_, some e) => (s, some (DBError.updateError e))

/-!  ### Constructors (src/namespaceSingle.go:19, src/unnamed/part_002:19,
src/unnamed/part_001:25).  A Go `panic` at construction is `none`. -/

structure NamespaceSingleH where
  name : Bytes
deriving DecidableEq

structure NamespaceMultipleH where
  name : Bytes
deriving DecidableEq

/-- Model of `NewNamespaceSingle`: panics on an empty name or a name
containing the null byte, succeeds otherwise. -/
def NewNamespaceSingle (name : Bytes) : Option NamespaceSingleH :=
  if name = [] then none
  else if 0 ∈ name then none
  else some ⟨name⟩

/-- Model of `NewNamespaceMultiple`: same preconditions. -/
def NewNamespaceMultiple (name : Bytes) : Option NamespaceMultipleH :=
  if name = [] then none
  else if 0 ∈ name then none
  else some ⟨name⟩

/-- Database handle as far as the constructor contract is concerned. -/
structure DBH (α : Type) where
  txnAPIBuilder : Store → α

/-- Model of `Open` (src/unnamed/part_001:25): a nil `txnAPIBuilder`
panics before the engine is touched; otherwise the handle stores the
builder.  The engine-opening side effects are outside the model. -/
def Open (α : Type) (txnAPIBuilder : Option (Store → α)) : Option (DBH α) :=
  match txnAPIBuilder with
  | none => none
  | some b => some ⟨b⟩

/-!  ### Spec-side iteration and supporting lemmas -/

/-- States that the key space holds no prefix collision for `name`: every
stored key that starts with the raw name bytes is a proper encoded key of
that namespace, `name ++ 0x00 ++ encodedKey` (data-model invariant of
§3).  `Iter`'s prefix scan visits exactly this namespace's entries only
on such stores. -/
def WFStore (name : Bytes) (s : Store) : Prop :=
  ∀ e ∈ s, name.isPrefixOf e.1 = true → (name ++ [0]).isPrefixOf e.1 = true

instance (name : Bytes) (s : Store) : Decidable (WFStore name s) := by
  unfold WFStore; infer_instance

/-- Spec reference for `iterate` (§4.4): given the namespace's stored
entries as (encoded-typed-key bytes, value bytes) pairs in
byte-lexicographic order of their full encoded keys, decode each pair and
invoke the visitor; a decode failure or a visitor error aborts with that
error; `stop == true` ends the traversal with no error.  Returns the
outcome together with the visited decoded pairs. -/
def runVisitors (viewer : GValue → GValue → Bool × Option String) :
    List (Bytes × Bytes) → IterResult × List (GValue × GValue)
  | [] => (IterResult.ok, [])
  | (kb, vb) :: rest =>
    match decodeGob kb with
    | none => (IterResult.error DBError.decodeError, [])
    | some key =>
      match decodeGob vb with
      | none => (IterResult.error DBError.decodeError, [])
      | some value =>
        match viewer key value with
        | (_, some e) => (IterResult.error (DBError.visitorError e), [(key, value)])
        | (true, none) => (IterResult.ok, [(key, value)])
        | (false, none) =>
          let r := runVisitors viewer rest
          (r.1, (key, value) :: r.2)

/-- Spec reference for a full `iterate` call (§4.4): traverse exactly the
key/value pairs whose encoded key starts with the namespace's prefix
`name ++ 0x00`, ordered by their full encoded keys, stripped to the
typed-key bytes. -/
def iterNsSpec (name : Bytes) (viewer : GValue → GValue → Bool × Option String)
    (s : Store) : IterResult × List (GValue × GValue) :=
  runVisitors viewer
    ((sortByKey (s.filter (fun e => (name ++ [0]).isPrefixOf e.1))).map
      (fun e => (e.1.drop (name.length + 1), e.2)))

theorem isPrefixOf_self (l : Bytes) : l.isPrefixOf l = true :=
  List.isPrefixOf_iff_prefix.mpr (List.prefix_refl l)

theorem filter_eq_of_wf {name : Bytes} {s : Store} (hwf : WFStore name s) :
    s.filter (fun e => name.isPrefixOf e.1) =
      s.filter (fun e => (name ++ [0]).isPrefixOf e.1) := by
  apply List.filter_congr
  intro e he
  cases hc : name.isPrefixOf e.1 with
  | true => rw [hwf e he hc]
  | false =>
    cases hb : (name ++ [0]).isPrefixOf e.1 with
    | false => rfl
    | true =>
      exfalso
      have hp : name <+: e.1 :=
        List.IsPrefix.trans (List.prefix_append name [0])
          (List.isPrefixOf_iff_prefix.mp hb)
      rw [List.isPrefixOf_iff_prefix.mpr hp] at hc
      exact Bool.noConfusion hc

theorem iterLoop_eq_runVisitors (name : Bytes)
    (viewer : GValue → GValue → Bool × Option String) :
    ∀ l : List (Bytes × Bytes),
      (∀ e ∈ l, (name ++ [0]).isPrefixOf e.1 = true) →
      iterLoop name viewer l =
        (runVisitors viewer (l.map (fun e => (e.1.drop (name.length + 1), e.2)))).1 ∧
      iterVisits name viewer l =
        (runVisitors viewer (l.map (fun e => (e.1.drop (name.length + 1), e.2)))).2 := by
  intro l
  induction l with
  | nil => intro _; exact ⟨rfl, rfl⟩
  | cons e rest ih =>
    intro h
    obtain ⟨k, vb⟩ := e
    have hk : (name ++ [0]).isPrefixOf k = true := h (k, vb) (List.mem_cons_self _ _)
    have hlen : name.length + 1 ≤ k.length := by
      rcases List.isPrefixOf_iff_prefix.mp hk with ⟨t, ht⟩
      rw [← ht]; simp
    have hrw : removePrefixFromKey name k = some (k.drop (name.length + 1)) := by
      unfold removePrefixFromKey; rw [if_pos hlen]
    have iht := ih (fun e he => h e (List.mem_cons_of_mem _ he))
    rcases hd1 : decodeGob (k.drop (name.length + 1)) with _ | key
    · constructor <;> simp [iterLoop, iterVisits, runVisitors, hrw, hd1]
    · rcases hd2 : decodeGob vb with _ | value
      · constructor <;> simp [iterLoop, iterVisits, runVisitors, hrw, hd1, hd2]
      · rcases hv : viewer key value with ⟨stop, err⟩
        rcases err with _ | e
        · cases stop
          · constructor <;>
              simp [iterLoop, iterVisits, runVisitors, hrw, hd1, hd2, hv, iht.1, iht.2]
          · constructor <;> simp [iterLoop, iterVisits, runVisitors, hrw, hd1, hd2, hv]
        · constructor <;> simp [iterLoop, iterVisits, runVisitors, hrw, hd1, hd2, hv]

theorem sorted_filtered_head_eq (name vb : Bytes) (s : Store)
    (hmem : (name, vb) ∈ s) (hnd : (s.map Prod.fst).Nodup) :
    ∃ rest, sortByKey (s.filter (fun e => name.isPrefixOf e.1)) = (name, vb) :: rest := by
  have hmL : (name, vb) ∈ s.filter (fun e => name.isPrefixOf e.1) :=
    List.mem_filter.mpr ⟨hmem, isPrefixOf_self name⟩
  have hmS : (name, vb) ∈ sortByKey (s.filter (fun e => name.isPrefixOf e.1)) :=
    mem_sortByKey.mpr hmL
  have hsorted := sortByKey_sorted (s.filter (fun e => name.isPrefixOf e.1))
  have hndL : ((s.filter (fun e => name.isPrefixOf e.1)).map Prod.fst).Nodup :=
    List.Nodup.sublist ((List.filter_sublist s).map Prod.fst) hnd
  have hperm : List.Perm (sortByKey (s.filter (fun e => name.isPrefixOf e.1)))
      (s.filter (fun e => name.isPrefixOf e.1)) :=
    List.perm_insertionSort keyLe _
  have hndS : ((sortByKey (s.filter (fun e => name.isPrefixOf e.1))).map Prod.fst).Nodup :=
    ((hperm.map Prod.fst).nodup_iff).mpr hndL
  cases hcase : sortByKey (s.filter (fun e => name.isPrefixOf e.1)) with
  | nil => rw [hcase] at hmS; simp at hmS
  | cons e0 rest =>
    rw [hcase] at hmS hsorted hndS
    have he0L : e0 ∈ s.filter (fun e => name.isPrefixOf e.1) := by
      apply mem_sortByKey.mp
      rw [hcase]
      exact List.mem_cons_self e0 rest
    have hpre : name.isPrefixOf e0.1 = true := by
      have := List.mem_filter.mp he0L
      simpa using this.2
    have hle1 : lexLe name e0.1 = true := lexLe_of_isPrefixOf hpre
    rcases List.mem_cons.mp hmS with h1 | h2
    · exact ⟨rest, by rw [← h1]⟩
    · exfalso
      have hle2 : keyLe e0 (name, vb) := List.rel_of_sorted_cons hsorted _ h2
      have he0name : e0.1 = name := lexLe_antisymm hle2 hle1
      have hmm : name ∈ rest.map Prod.fst := by
        have := List.mem_map_of_mem Prod.fst h2
        simpa using this
      rw [List.map_cons, List.nodup_cons] at hndS
      exact hndS.1 (he0name ▸ hmm)

theorem decodeGob_encodeGob (v : GValue) : decodeGob (encodeGob v) = some v :=
  decodeGValue_encodeGValue v

/-!  ### Claims -/

/-- C1: the claim says `FindKeyByValue` returns the first key whose
stored value bytes equal the encoded target with `ok == true`, and
`(zero_key, false)` when nothing matches.  Evaluating the model at the
failing input: on the store `{[1] ++ 0x00 ++ enc(2) ↦ enc(7)}` the
matching search does return the first matching key with `ok == true`,
but the search for the absent value `8` returns the zero key with
`ok == true` — the source returns `key, true, nil` unconditionally
(src/unnamed/part_002:179), never `ok == false`. -/
theorem c1_findKeyByValue_eval :
    FindKeyByValue [1] (GValue.vNat 7) [([1, 0, 0, 2], [0, 7])] =
      FindResult.found (GValue.vNat 2) true ∧
    FindKeyByValue [1] (GValue.vNat 8) [([1, 0, 0, 2], [0, 7])] =
      FindResult.found gzero true := by
  constructor <;> decide

/-- C2: evaluation at the failing input A = `[1,2]`, B = `[1]` (B a
proper string prefix of A, both non-empty and null-free).  The claim says
a write under A is never observable through B.  In the model of the
source, the write under A produces the key `[1,2,0,0,0]`;
`DropNamespace(B)` (`DropPrefix` on the raw name,
src/unnamed/part_001:96) erases it, and `Iter` on B (`ValidForPrefix` on
the raw name, src/unnamed/part_002:102) processes it and aborts with a
decode error instead of ignoring it. -/
theorem c2_prefix_isolation_eval :
    multiSet [1, 2] (GValue.vNat 0) (GValue.vNat 0) [] =
      Except.ok [([1, 2, 0, 0, 0], [0, 0])] ∧
    dropNamespace [1] [([1, 2, 0, 0, 0], [0, 0])] = [] ∧
    Iter [1] (fun _ _ => (false, none)) [([1, 2, 0, 0, 0], [0, 0])] =
      IterResult.error DBError.decodeError := by
  refine ⟨rfl, by decide, by decide⟩

/-- C3: on a store whose `name`-prefixed keys are exactly this
namespace's encoded entries (`WFStore`), `Iter` equals the spec-side
traversal `iterNsSpec`: it visits exactly the namespace's key/value
pairs in byte-lexicographic order of their full encoded keys, invoking
the visitor with the decoded key and value of each; `stop == true` ends
the traversal with no error and no further visit; a visitor error or a
key/value decode failure aborts the iteration with that error.  The raw
entry sequence `Iter` walks is sorted by full encoded key. -/
theorem c3_iter_refines_spec (name : Bytes)
    (viewer : GValue → GValue → Bool × Option String) (s : Store)
    (hname : name ≠ [] ∧ 0 ∉ name) (hwf : WFStore name s) :
    Iter name viewer s = (iterNsSpec name viewer s).1 ∧
    IterVisits name viewer s = (iterNsSpec name viewer s).2 ∧
    List.Sorted keyLe (sortByKey (s.filter (fun e => name.isPrefixOf e.1))) := by
  have hfe := filter_eq_of_wf hwf
  have hall : ∀ e ∈ sortByKey (s.filter (fun e => (name ++ [0]).isPrefixOf e.1)),
      (name ++ [0]).isPrefixOf e.1 = true := by
    intro e he
    have hm := mem_sortByKey.mp he
    have hf := List.mem_filter.mp hm
    simpa using hf.2
  have h := iterLoop_eq_runVisitors name viewer _ hall
  exact ⟨by unfold Iter iterNsSpec; rw [hfe]; exact h.1,
    by unfold IterVisits iterNsSpec; rw [hfe]; exact h.2,
    sortByKey_sorted _⟩

/-- C3 witness: the refinement instantiated on a concrete two-entry
namespace store. -/
theorem c3_witness :
    ((([1] : Bytes) ≠ [] ∧ 0 ∉ ([1] : Bytes)) ∧
      WFStore [1] [([1, 0, 0, 2], [0, 7]), ([1, 0, 0, 1], [0, 9])]) ∧
    (Iter [1] (fun _ _ => (false, none))
        [([1, 0, 0, 2], [0, 7]), ([1, 0, 0, 1], [0, 9])] =
      (iterNsSpec [1] (fun _ _ => (false, none))
        [([1, 0, 0, 2], [0, 7]), ([1, 0, 0, 1], [0, 9])]).1 ∧
    IterVisits [1] (fun _ _ => (false, none))
        [([1, 0, 0, 2], [0, 7]), ([1, 0, 0, 1], [0, 9])] =
      (iterNsSpec [1] (fun _ _ => (false, none))
        [([1, 0, 0, 2], [0, 7]), ([1, 0, 0, 1], [0, 9])]).2 ∧
    List.Sorted keyLe (sortByKey
      (List.filter (fun e => List.isPrefixOf [1] e.1)
        [([1, 0, 0, 2], [0, 7]), ([1, 0, 0, 1], [0, 9])]))) :=
  ⟨⟨⟨by decide, by decide⟩, by decide⟩,
    c3_iter_refines_spec [1] (fun _ _ => (false, none))
      [([1, 0, 0, 2], [0, 7]), ([1, 0, 0, 1], [0, 9])]
      ⟨by decide, by decide⟩ (by decide)⟩

/-- C4: single-value namespace lifecycle.  With the key absent, `Get`
returns the zero value with no error; `Set` succeeds and a subsequent
`Get` returns the written value; `Delete` succeeds (also on the absent
key) and a subsequent `Get` returns the zero value with no error
again. -/
theorem c4_single_lifecycle (name : Bytes) (v : GValue) (s : Store)
    (hname : name ≠ [] ∧ 0 ∉ name) (habsent : storeGet s name = none) :
    singleGet name s = Except.ok gzero ∧
    singleSet name v s = Except.ok (storeSet s name (encodeGob v)) ∧
    singleGet name (storeSet s name (encodeGob v)) = Except.ok v ∧
    singleDelete name (storeSet s name (encodeGob v)) =
      Except.ok (storeDelete (storeSet s name (encodeGob v)) name) ∧
    singleGet name (storeDelete (storeSet s name (encodeGob v)) name) =
      Except.ok gzero ∧
    singleDelete name s = Except.ok (storeDelete s name) := by
  refine ⟨?_, rfl, ?_, rfl, ?_, rfl⟩
  · simp [singleGet, habsent]
  · simp [singleGet, storeGet_storeSet_self, decodeGob_encodeGob]
  · simp [singleGet, storeGet_storeDelete_self]

/-- C4 witness: the lifecycle instantiated at namespace `[2]`, value
`vNat 3`, empty store. -/
theorem c4_witness :
    storeGet [] [2] = none ∧
    (singleGet [2] [] = Except.ok gzero ∧
    singleSet [2] (GValue.vNat 3) [] =
      Except.ok (storeSet [] [2] (encodeGob (GValue.vNat 3))) ∧
    singleGet [2] (storeSet [] [2] (encodeGob (GValue.vNat 3))) =
      Except.ok (GValue.vNat 3) ∧
    singleDelete [2] (storeSet [] [2] (encodeGob (GValue.vNat 3))) =
      Except.ok (storeDelete (storeSet [] [2] (encodeGob (GValue.vNat 3))) [2]) ∧
    singleGet [2] (storeDelete (storeSet [] [2] (encodeGob (GValue.vNat 3))) [2]) =
      Except.ok gzero ∧
    singleDelete [2] [] = Except.ok (storeDelete [] [2])) :=
  ⟨by decide, c4_single_lifecycle [2] (GValue.vNat 3) []
    ⟨by decide, by decide⟩ (by decide)⟩

/-- C5: multi-value namespace lifecycle.  With the encoded key absent,
`Get` returns `(zero, false)` with no error; `Set` succeeds and a
subsequent `Get` returns `(v, true)` with no error; `Delete` succeeds
(also on the absent key) and a subsequent `Get` returns `(zero, false)`
with no error again. -/
theorem c5_multi_lifecycle (name : Bytes) (k v : GValue) (s : Store)
    (hname : name ≠ [] ∧ 0 ∉ name)
    (habsent : storeGet s (addPrefixToKey name (encodeGob k)) = none) :
    multiGet name k s = Except.ok (gzero, false) ∧
    multiSet name k v s =
      Except.ok (storeSet s (addPrefixToKey name (encodeGob k)) (encodeGob v)) ∧
    multiGet name k (storeSet s (addPrefixToKey name (encodeGob k)) (encodeGob v)) =
      Except.ok (v, true) ∧
    multiDelete name k (storeSet s (addPrefixToKey name (encodeGob k)) (encodeGob v)) =
      Except.ok (storeDelete
        (storeSet s (addPrefixToKey name (encodeGob k)) (encodeGob v))
        (addPrefixToKey name (encodeGob k))) ∧
    multiGet name k (storeDelete
        (storeSet s (addPrefixToKey name (encodeGob k)) (encodeGob v))
        (addPrefixToKey name (encodeGob k))) = Except.ok (gzero, false) ∧
    multiDelete name k s =
      Except.ok (storeDelete s (addPrefixToKey name (encodeGob k))) := by
  refine ⟨?_, rfl, ?_, rfl, ?_, rfl⟩
  · simp [multiGet, habsent]
  · simp [multiGet, storeGet_storeSet_self, decodeGob_encodeGob]
  · simp [multiGet, storeGet_storeDelete_self]

/-- C5 witness: the lifecycle instantiated at namespace `[1]`, key
`vNat 2`, value `vNat 7`, empty store. -/
theorem c5_witness :
    storeGet [] (addPrefixToKey [1] (encodeGob (GValue.vNat 2))) = none ∧
    (multiGet [1] (GValue.vNat 2) [] = Except.ok (gzero, false) ∧
    multiSet [1] (GValue.vNat 2) (GValue.vNat 7) [] =
      Except.ok (storeSet [] (addPrefixToKey [1] (encodeGob (GValue.vNat 2)))
        (encodeGob (GValue.vNat 7))) ∧
    multiGet [1] (GValue.vNat 2)
        (storeSet [] (addPrefixToKey [1] (encodeGob (GValue.vNat 2)))
          (encodeGob (GValue.vNat 7))) = Except.ok (GValue.vNat 7, true) ∧
    multiDelete [1] (GValue.vNat 2)
        (storeSet [] (addPrefixToKey [1] (encodeGob (GValue.vNat 2)))
          (encodeGob (GValue.vNat 7))) =
      Except.ok (storeDelete
        (storeSet [] (addPrefixToKey [1] (encodeGob (GValue.vNat 2)))
          (encodeGob (GValue.vNat 7)))
        (addPrefixToKey [1] (encodeGob (GValue.vNat 2)))) ∧
    multiGet [1] (GValue.vNat 2)
        (storeDelete
          (storeSet [] (addPrefixToKey [1] (encodeGob (GValue.vNat 2)))
            (encodeGob (GValue.vNat 7)))
          (addPrefixToKey [1] (encodeGob (GValue.vNat 2)))) =
      Except.ok (gzero, false) ∧
    multiDelete [1] (GValue.vNat 2) [] =
      Except.ok (storeDelete [] (addPrefixToKey [1] (encodeGob (GValue.vNat 2))))) :=
  ⟨by decide, c5_multi_lifecycle [1] (GValue.vNat 2) (GValue.vNat 7) []
    ⟨by decide, by decide⟩ (by decide)⟩

/-- C6: codec round-trip — decoding the bytes produced by encoding any
supported value yields that value back, with no error on either step
(encoding is total on the model universe, decoding returns `some`). -/
theorem c6_codec_roundtrip (v : GValue) : decodeGob (encodeGob v) = some v :=
  decodeGValue_encodeGValue v

/-- C7 counterexample: the claim quantifies over every `full_key`, but
`removePrefixFromKey` is `key[len(prefix)+1:]`, which panics (modelled
as `none`) when `full_key` is shorter than `len(prefix)+1` instead of
returning the (empty) bytes after that position. -/
theorem c7_cex :
    removePrefixFromKey [1] [] = none ∧
    ¬ removePrefixFromKey [1] [] =
        some (List.drop (([1] : Bytes).length + 1) ([] : Bytes)) := by
  constructor <;> decide

/-- C7 (amended): `addPrefixToKey` concatenates prefix, `0x00`, key;
`removePrefixFromKey` returns the bytes after position `len(prefix)+1`
whenever the key is at least that long (it panics otherwise); and the
round-trip `removePrefixFromKey pre (addPrefixToKey pre key) = key`
holds for all prefixes and keys. -/
theorem c7_key_utils (pre key : Bytes) :
    addPrefixToKey pre key = pre ++ 0 :: key ∧
    removePrefixFromKey pre (addPrefixToKey pre key) = some key ∧
    (∀ fk : Bytes, pre.length + 1 ≤ fk.length →
      removePrefixFromKey pre fk = some (fk.drop (pre.length + 1))) := by
  refine ⟨rfl, removePrefixFromKey_addPrefixToKey pre key, ?_⟩
  intro fk h
  unfold removePrefixFromKey
  rw [if_pos h]

/-- C7 witness: the key utilities evaluated at prefix `[1]`, key `[5]`,
and the well-formed full key `[1, 0, 5]`. -/
theorem c7_witness :
    ([1] : Bytes).length + 1 ≤ ([1, 0, 5] : Bytes).length ∧
    (addPrefixToKey [1] [5] = [1] ++ 0 :: [5] ∧
      removePrefixFromKey [1] (addPrefixToKey [1] [5]) = some [5]) ∧
    removePrefixFromKey [1] [1, 0, 5] =
      some (([1, 0, 5] : Bytes).drop (([1] : Bytes).length + 1)) :=
  ⟨by decide, ⟨(c7_key_utils [1] [5]).1, (c7_key_utils [1] [5]).2.1⟩,
    (c7_key_utils [1] [5]).2.2 [1, 0, 5] (by decide)⟩

/-- C8: `Update` atomicity.  If the transaction body returns an error,
every write it performed is discarded — the state component is the
original snapshot, untouched by the body's writes — and `Update` returns
a non-nil error wrapping the body's error; if the body returns nil, the
commit applies all of its writes in order. -/
theorem c8_update_atomic (fn : Store → List TxnOp × Option String) (s : Store) :
    (∀ e : String, (fn s).2 = some e →
      dbUpdate fn s = (s, some (DBError.updateError e))) ∧
    ((fn s).2 = none → dbUpdate fn s = (applyOps (fn s).1 s, none)) := by
  constructor
  · intro e he
    unfold dbUpdate
    rcases hfs : fn s with ⟨ops, err⟩
    rw [hfs] at he
    simp only at he
    subst he
    rfl
  · intro he
    unfold dbUpdate
    rcases hfs : fn s with ⟨ops, err⟩
    rw [hfs] at he
    simp only at he
    subst he
    rfl

/-- C8 witness: a failing transaction body that performed one write; the
state is unchanged and the wrapped error is returned. -/
theorem c8_witness :
    ((fun _ : Store => ([TxnOp.opSingleSet [1] (GValue.vNat 3)], some "x")) []).2 =
      some "x" ∧
    dbUpdate (fun _ : Store => ([TxnOp.opSingleSet [1] (GValue.vNat 3)], some "x")) [] =
      ([], some (DBError.updateError "x")) :=
  ⟨rfl, (c8_update_atomic
    (fun _ : Store => ([TxnOp.opSingleSet [1] (GValue.vNat 3)], some "x")) []).1
    "x" rfl⟩

/-- C9: precondition violations panic at construction.
`NewNamespaceSingle` and `NewNamespaceMultiple` panic (model: `none`)
exactly on an empty name or a name containing the null byte, and succeed
on every other name; `Open` with a nil `txnAPIBuilder` panics before the
engine is touched, and succeeds with a non-nil builder. -/
theorem c9_construction_panics :
    (∀ name : Bytes, NewNamespaceSingle name = none ↔ name = [] ∨ 0 ∈ name) ∧
    (∀ name : Bytes, NewNamespaceMultiple name = none ↔ name = [] ∨ 0 ∈ name) ∧
    (∀ α : Type, Open α none = none) ∧
    (∀ (α : Type) (b : Store → α), Open α (some b) = some ⟨b⟩) := by
  refine ⟨?_, ?_, fun α => rfl, fun α b => rfl⟩
  · intro name
    unfold NewNamespaceSingle
    split_ifs with h1 h2
    · simp [h1]
    · simp [h2]
    · simp [h1, h2]
  · intro name
    unfold NewNamespaceMultiple
    split_ifs with h1 h2
    · simp [h1]
    · simp [h2]
    · simp [h1, h2]

/-- C10 counterexample: the claim says `Iter` and `FindKeyByValue` both
panic when the store holds a key no longer than the namespace name that
starts with the name's bytes.  With the store `{[1] ↦ [9]}` and
namespace `[1]`, `FindKeyByValue` searching for `vNat 0` (whose encoding
`[0,0]` differs from the stored `[9]`) skips the entry before ever
stripping the key, completes without panicking, and returns the
not-found result. -/
theorem c10_cex :
    FindKeyByValue [1] (GValue.vNat 0) [([1], [9])] = FindResult.found gzero true ∧
    ¬ FindKeyByValue [1] (GValue.vNat 0) [([1], [9])] = FindResult.panics := by
  constructor <;> decide

/-- C10 (amended): if the store holds an entry whose key equals the
namespace name (the only null-free key that both starts with the name
and is no longer than it) then `Iter` always panics with the
out-of-range slice in `removePrefixFromKey`, and `FindKeyByValue` panics
when the value stored at that key equals the encoding of the searched
value (it reaches `removePrefixFromKey` only on a value match). -/
theorem c10_short_key_panics (name vb : Bytes) (s : Store)
    (viewer : GValue → GValue → Bool × Option String) (v : GValue)
    (hmem : (name, vb) ∈ s) (hnd : (s.map Prod.fst).Nodup) :
    Iter name viewer s = IterResult.panics ∧
    (vb = encodeGob v → FindKeyByValue name v s = FindResult.panics) := by
  obtain ⟨rest, hrest⟩ := sorted_filtered_head_eq name vb s hmem hnd
  have hnone : removePrefixFromKey name name = none := by
    unfold removePrefixFromKey
    rw [if_neg (by omega)]
  constructor
  · unfold Iter
    rw [hrest]
    simp [iterLoop, hnone]
  · intro hv
    unfold FindKeyByValue
    rw [hrest]
    simp [findLoop, hv, hnone]

/-- C10 witness: a single-value namespace stored under the same name as
the multi-value namespace `[1]` (key `[1]`, value `enc(vNat 5)`); `Iter`
panics, and `FindKeyByValue` searching `vNat 5` panics. -/
theorem c10_witness :
    ((([1], [0, 5]) ∈ ([([1], [0, 5])] : Store)) ∧
      (([([1], [0, 5])] : Store).map Prod.fst).Nodup ∧
      ([0, 5] : Bytes) = encodeGob (GValue.vNat 5)) ∧
    Iter [1] (fun _ _ => (false, none)) [([1], [0, 5])] = IterResult.panics ∧
    FindKeyByValue [1] (GValue.vNat 5) [([1], [0, 5])] = FindResult.panics :=
  ⟨⟨by decide, by decide, by decide⟩,
    (c10_short_key_panics [1] [0, 5] [([1], [0, 5])]
      (fun _ _ => (false, none)) (GValue.vNat 5) (by decide) (by decide)).1,
    (c10_short_key_panics [1] [0, 5] [([1], [0, 5])]
      (fun _ _ => (false, none)) (GValue.vNat 5) (by decide) (by decide)).2
      (by decide)⟩

end Instorage
